import Mathlib

/-!
Shallow embedding of `maxminddb-rust` (`src/lib.rs`): a read-only MaxMind DB
reader consisting of a metadata locator, a control-byte decoder and a trie
walker.  Byte buffers are modelled as `List Nat` (each element one byte),
cursors as `Nat` offsets, and every Rust operation that can panic (slice out
of bounds, `unwrap`, `unreachable!`, missing-key indexing) is modelled by
returning `none`.  Machine integers are `Nat` with explicit reduction
`% 2 ^ 32` / `% 2 ^ 64` exactly where the Rust `u32` / `u64` arithmetic can
discard high bits.
-/

namespace Mmdb

/-- `const METADATA_DELIMETER: [u8; 14]` — the bytes `AB CD EF "MaxMind.com"`. -/
def METADATA_DELIMETER : List Nat :=
  [0xAB, 0xCD, 0xEF, 0x4D, 0x61, 0x78, 0x4D, 0x69, 0x6E, 0x64, 0x2E, 0x63, 0x6F, 0x6D]

/-- Indexing `METADATA_DELIMETER[i]`; the scan only ever uses `i ∈ [1, 13]`. -/
def delimByte (i : Nat) : Nat := METADATA_DELIMETER.getD i 0

/-- The final 13 bytes of the sentinel, `CD EF "MaxMind.com"`. -/
def finalThirteen : List Nat :=
  [0xCD, 0xEF, 0x4D, 0x61, 0x78, 0x4D, 0x69, 0x6E, 0x64, 0x2E, 0x63, 0x6F, 0x6D]

/-- The reverse walk of `Metadata::get_metadata_block_offset`: `items` is the
remaining reversed buffer, `i` the reverse index, `co` the countdown into the
delimiter (starting at 13), `len` the buffer length.  On a full match the code
computes `buffer.len() - i - 2 + METADATA_DELIMETER.len()`; for `len - i ≥ 2`
this equals `len - i + 12`, which is the form used here (when `len - i = 1`
the Rust `usize` subtraction wraps in release mode to the same value). -/
def scanRev (len : Nat) : List Nat → Nat → Nat → Nat
  | [], _, _ => 0
  | item :: rest, i, co =>
    let co' := if delimByte co = item then co - 1 else 13
    if co' = 0 then len - i + 12 else scanRev len rest (i + 1) co'

/-- `Metadata::get_metadata_block_offset`: scan the buffer from the tail for
the sentinel; `0` when no match completes. -/
def getMetadataBlockOffset (buffer : List Nat) : Nat :=
  scanRev buffer.length buffer.reverse 0 13

/-- The fold body `|acc, &x| (acc << 8) | u32::from(x)` on `u32`: the shift
silently discards bits at and above 2^32. -/
def foldU32Step (acc x : Nat) : Nat := ((acc <<< 8) % 2 ^ 32) ||| x

/-- The fold body `|acc, &x| (acc << 8) | u64::from(x)` on `u64`. -/
def foldU64Step (acc x : Nat) : Nat := ((acc <<< 8) % 2 ^ 64) ||| x

/-- IP addresses by their octet lists (`ip.octets()`): 4 octets for V4,
16 octets for V6. -/
inductive IpAddr where
  | v4 (octets : List Nat) : IpAddr
  | v6 (octets : List Nat) : IpAddr

/-- `Reader::ip_to_bitmask`: fold the octets into a `u32` accumulator and
return it together with the bit count (32 for V4, 128 for V6). -/
def ipToBitmask : IpAddr → Nat × Nat
  | .v4 o => (o.foldl foldU32Step 0, 32)
  | .v6 o => (o.foldl foldU32Step 0, 128)

/-- The mathematical big-endian value of an octet list — what the spec calls
the full lookup key. -/
def beValue (octets : List Nat) : Nat := octets.foldl (fun acc x => acc * 256 + x) 0

/-- The suffix of the delimiter walked by the countdown: the bytes
`[delimByte co, delimByte (co-1), ..., delimByte 1]`. -/
def delimTail : Nat → List Nat
  | 0 => []
  | co + 1 => delimByte (co + 1) :: delimTail co

/-- `enum Type` from the source. -/
inductive Ty where
  | extended
  | pointer
  | string
  | double
  | bytes
  | uint16
  | uint32
  | map
  | int32
  | uint64
  | uint128
  | array
  | container
  | endMarker
  | boolean
  | float
deriving DecidableEq

/-- `pub enum ResultValue`.  Float and Double values are carried as their raw
IEEE-754 bit patterns (`f32::from_bits` / `f64::from_bits` are bijections
between bits and values). -/
inductive ResultValue where
  | str (bytes : List Nat)
  | uint (v : Nat)
  | boolean (b : Bool)
  | double (bits : Nat)
  | float (bits : Nat)
deriving DecidableEq

/-- Indexing `buffer[i]`; out of bounds is a panic, modelled as `none`. -/
def byteAt (buf : List Nat) (i : Nat) : Option Nat := buf[i]?

/-- `Decoder::decode_n_bytes_as_uint`: read `n` bytes big-endian into a `u64`
(the slice panics when it would run past the buffer).  Returns the value and
the new cursor. -/
def decodeNBytesAsUint (buf : List Nat) (off n : Nat) : Option (Nat × Nat) :=
  if off + n ≤ buf.length then
    some (((buf.drop off).take n).foldl foldU64Step 0, off + n)
  else none

/-- The `match type_bits` table; the `_ => unreachable!()` arm is `none`. -/
def tagToTy (t : Nat) : Option Ty :=
  match t with
  | 0 => some .extended
  | 1 => some .pointer
  | 2 => some .string
  | 3 => some .double
  | 4 => some .bytes
  | 5 => some .uint16
  | 6 => some .uint32
  | 7 => some .map
  | 8 => some .int32
  | 9 => some .uint64
  | 10 => some .uint128
  | 11 => some .array
  | 12 => some .container
  | 13 => some .endMarker
  | 14 => some .boolean
  | 15 => some .float
  | _ => none

/-- `Decoder::decode_ctrl_byte`: returns type, size and the new cursor.  In
the extended branch the source computes `7 + next_byte` on `u8`; it is kept
as a plain sum here, and any tag above 15 lands in the `unreachable!()` arm
(for a next byte of 249 and above the Rust debug build already panics on the
`u8` overflow — `none` either way). -/
def decodeCtrlByte (buf : List Nat) (off : Nat) : Option (Ty × Nat × Nat) := do
  let byte ← byteAt buf off
  let (typeBits, off₁) ←
    if byte >>> 5 = 0 then do
      let e ← byteAt buf (off + 1)
      pure (7 + e, off + 2)
    else pure (byte >>> 5, off + 1)
  let ty ← tagToTy typeBits
  match byte &&& 0x1F with
  | 29 => do
    let (v, off₂) ← decodeNBytesAsUint buf off₁ 1
    pure (ty, 29 + v, off₂)
  | 30 => do
    let (v, off₂) ← decodeNBytesAsUint buf off₁ 2
    pure (ty, 285 + v, off₂)
  | 31 => do
    let (v, off₂) ← decodeNBytesAsUint buf off₁ 3
    pure (ty, 65821 + v, off₂)
  | s => pure (ty, s, off₁)

/-- `Decoder::decode_uint`: control byte, then `size` big-endian bytes. -/
def decodeUint (buf : List Nat) (off : Nat) : Option (Nat × Nat) := do
  let (_, size, off₁) ← decodeCtrlByte buf off
  decodeNBytesAsUint buf off₁ size

/-- `Decoder::get_pointer_address`, called with the cursor one past the bytes
`decode_ctrl_byte` consumed.  The source re-reads `buffer[offset - 1]` and
re-applies the generic 29/30/31 size rules to it (consuming further bytes)
before extracting the 2-bit pointer size — reproduced verbatim.  Returns the
target offset and the new cursor. -/
def getPointerAddress (buf : List Nat) (off : Nat) : Option (Nat × Nat) := do
  let cur ← if off = 0 then none else byteAt buf (off - 1)
  let (size, off₁) ←
    match cur &&& 0x1F with
    | 29 => do
      let (v, o) ← decodeNBytesAsUint buf off 1
      pure (29 + v, o)
    | 30 => do
      let (v, o) ← decodeNBytesAsUint buf off 2
      pure (285 + v, o)
    | 31 => do
      let (v, o) ← decodeNBytesAsUint buf off 3
      pure (65821 + v, o)
    | s => pure (s, off)
  match (size >>> 3) &&& 0x3 with
  | 0 => do
    let x ← byteAt buf off₁
    pure (((size &&& 0x7) <<< 8) + x, off₁ + 1)
  | 1 => do
    let x1 ← byteAt buf off₁
    let x2 ← byteAt buf (off₁ + 1)
    pure (2048 + (((size &&& 0x7) <<< 16) ||| (x1 <<< 8) ||| x2), off₁ + 2)
  | 2 => do
    let x1 ← byteAt buf off₁
    let x2 ← byteAt buf (off₁ + 1)
    let x3 ← byteAt buf (off₁ + 2)
    pure (526336 + (((size &&& 0x7) <<< 24) ||| (x1 <<< 16) ||| (x2 <<< 8) ||| x3), off₁ + 3)
  | _ => do
    let x1 ← byteAt buf off₁
    let x2 ← byteAt buf (off₁ + 1)
    let x3 ← byteAt buf (off₁ + 2)
    let x4 ← byteAt buf (off₁ + 3)
    pure ((x1 <<< 24) ||| (x2 <<< 16) ||| (x3 <<< 8) ||| x4, off₁ + 4)

/-- A UTF-8 continuation byte. -/
def isCont (x : Nat) : Bool := 0x80 ≤ x && x ≤ 0xBF

/-- Validity of a UTF-8 byte sequence — the check Rust's `str::from_utf8`
performs before the decoder's `unwrap` / `expect` calls. -/
def isValidUtf8 : List Nat → Bool
  | [] => true
  | b :: rest =>
    if b < 0x80 then isValidUtf8 rest
    else if 0xC2 ≤ b && b ≤ 0xDF then
      match rest with
      | c1 :: rest' => isCont c1 && isValidUtf8 rest'
      | [] => false
    else if b = 0xE0 then
      match rest with
      | c1 :: c2 :: rest' => (0xA0 ≤ c1 && c1 ≤ 0xBF) && isCont c2 && isValidUtf8 rest'
      | _ => false
    else if (0xE1 ≤ b && b ≤ 0xEC) || b = 0xEE || b = 0xEF then
      match rest with
      | c1 :: c2 :: rest' => isCont c1 && isCont c2 && isValidUtf8 rest'
      | _ => false
    else if b = 0xED then
      match rest with
      | c1 :: c2 :: rest' => (0x80 ≤ c1 && c1 ≤ 0x9F) && isCont c2 && isValidUtf8 rest'
      | _ => false
    else if b = 0xF0 then
      match rest with
      | c1 :: c2 :: c3 :: rest' =>
        (0x90 ≤ c1 && c1 ≤ 0xBF) && isCont c2 && isCont c3 && isValidUtf8 rest'
      | _ => false
    else if 0xF1 ≤ b && b ≤ 0xF3 then
      match rest with
      | c1 :: c2 :: c3 :: rest' => isCont c1 && isCont c2 && isCont c3 && isValidUtf8 rest'
      | _ => false
    else if b = 0xF4 then
      match rest with
      | c1 :: c2 :: c3 :: rest' =>
        (0x80 ≤ c1 && c1 ≤ 0x8F) && isCont c2 && isCont c3 && isValidUtf8 rest'
      | _ => false
    else false

/-- `Decoder::skip_value` together with its `for _ in 0..size` loops,
restructured for the embedding as "skip `count` consecutive values" so that
the recursion is structural on the fuel argument (which bounds nesting
depth plus loop steps) and the kernel can evaluate it.  `none` models both
panics and fuel exhaustion.  A map entry is a key/value pair, hence
`2 * size` values for maps. -/
def skipN : Nat → List Nat → Nat → Nat → Option Nat
  | _, _, off, 0 => some off
  | 0, _, _, _ + 1 => none
  | fuel + 1, buf, off, k + 1 => do
    let (ty, size, off₁) ← decodeCtrlByte buf off
    let off₂ ←
      match ty with
      | .string | .double | .bytes | .int32 | .uint16 | .uint32 | .uint64 | .uint128 =>
        some (off₁ + size)
      | .pointer => (getPointerAddress buf off₁).map (fun p => p.2)
      | .array => skipN fuel buf off₁ size
      | .map => skipN fuel buf off₁ (2 * size)
      | .boolean => some off₁
      | _ => none
    skipN fuel buf off₂ k

/-- `Decoder::skip_value`: skip one value. -/
def skipValue (fuel : Nat) (buf : List Nat) (off : Nat) : Option Nat :=
  skipN fuel buf off 1

/-- `Decoder::decode_value` (fueled): only String, Pointer, Boolean, Float
and Double are materialized; every other type hits `unimplemented!()`,
modelled as `none`. -/
def decodeValue : Nat → List Nat → Nat → Option (ResultValue × Nat)
  | 0, _, _ => none
  | fuel + 1, buf, off => do
    let (ty, size, off₁) ← decodeCtrlByte buf off
    match ty with
    | .string =>
      if off₁ + size ≤ buf.length then
        let data := (buf.drop off₁).take size
        if isValidUtf8 data then pure (.str data, off₁ + size) else none
      else none
    | .pointer => do
      let (p, _) ← getPointerAddress buf off₁
      decodeValue fuel buf p
    | .boolean => pure (.boolean (size = 1), off₁)
    | .float =>
      if off₁ + size ≤ buf.length then
        pure (.float (((buf.drop off₁).take size).foldl foldU32Step 0), off₁ + size)
      else none
    | .double => do
      let (v, off₂) ← decodeNBytesAsUint buf off₁ size
      pure (.double v, off₂)
    | _ => none

/-- `Decoder::decode_string`: returns the string bytes and the new cursor.
In the pointer branch the source reads the pointee's first byte directly,
but consumes any 29/30/31 size-extension bytes from the CURRENT cursor and
takes the payload from `pointer_offset + 1` — reproduced verbatim. -/
def decodeString (buf : List Nat) (off : Nat) : Option (List Nat × Nat) := do
  let (ty, size, off₁) ← decodeCtrlByte buf off
  match ty with
  | .string =>
    if off₁ + size ≤ buf.length then
      let data := (buf.drop off₁).take size
      if isValidUtf8 data then pure (data, off₁ + size) else none
    else none
  | .pointer => do
    let (p, off₂) ← getPointerAddress buf off₁
    let byte ← byteAt buf p
    let (size', off₃) ←
      match byte &&& 0x1F with
      | 29 => do
        let (v, o) ← decodeNBytesAsUint buf off₂ 1
        pure (29 + v, o)
      | 30 => do
        let (v, o) ← decodeNBytesAsUint buf off₂ 2
        pure (285 + v, o)
      | 31 => do
        let (v, o) ← decodeNBytesAsUint buf off₂ 3
        pure (65821 + v, o)
      | s => pure (s, off₂)
    if p + 1 + size' ≤ buf.length then
      let data := (buf.drop (p + 1)).take size'
      if isValidUtf8 data then pure (data, off₃) else none
    else none
  | _ => none

/-- `search_for.parse::<usize>()` on the key bytes: a nonempty all-digit
decimal (the Rust parser also accepts a leading `+`, which cannot match a
decoded map key here and is immaterial to the claims). -/
def parseUsize (s : List Nat) : Option Nat :=
  if s ≠ [] ∧ s.all (fun c => 48 ≤ c && c ≤ 57) then
    some (s.foldl (fun acc c => acc * 10 + (c - 48)) 0)
  else none

/-- State of the `find_field` search: either at a value with remaining path
`parts`, or inside the `for i in 0..size` search loop of a container. -/
inductive FindSt where
  | field (parts : List (List Nat))
  | onLoop (searchFor : List Nat) (idx? : Option Nat) (nextParts : List (List Nat))
      (i remaining : Nat)

/-- `Decoder::find_field` together with its search loop, as one function
whose recursion is structural on the fuel (each loop step also consumes one
unit, so the kernel can evaluate it).  `parts` is the remaining dotted
path, pre-split at the dots (the source splits the string as it goes; a
decoded map key can never both contain a dot and match, so the splitting is
equivalent).  Outer `none` is a panic; `some none` means not found;
`some (some v)` means found with `v` inserted into the output under the
full path.  In the numeric case each loop iteration skips one value until
the index is reached; in the key case each iteration decodes the key
string and either recurses into the value or skips it. -/
def findGo : Nat → List Nat → Nat → FindSt → Option (Option ResultValue)
  | 0, _, _, _ => none
  | fuel + 1, buf, off, .field [] => do
    let (v, _) ← decodeValue (fuel + 1) buf off
    pure (some v)
  | fuel + 1, buf, off, .field (searchFor :: nextParts) => do
    let idx? := parseUsize searchFor
    let (ty, size₀, off₁) ← decodeCtrlByte buf off
    let (size, off₂) ←
      if ty = .pointer then do
        let (p, _) ← getPointerAddress buf off₁
        let (_, s₂, o₂) ← decodeCtrlByte buf p
        pure (s₂, o₂)
      else pure (size₀, off₁)
    findGo fuel buf off₂ (.onLoop searchFor idx? nextParts 0 size)
  | _ + 1, _, _, .onLoop _ _ _ _ 0 => pure none
  | fuel + 1, buf, off, .onLoop searchFor idx? nextParts i (remaining + 1) =>
    match idx? with
    | some index =>
      if i = index then findGo fuel buf off (.field nextParts)
      else do
        let off' ← skipValue fuel buf off
        findGo fuel buf off' (.onLoop searchFor idx? nextParts (i + 1) remaining)
    | none => do
      let (key, off₁) ← decodeString buf off
      if key = searchFor then findGo fuel buf off₁ (.field nextParts)
      else do
        let off' ← skipValue fuel buf off₁
        findGo fuel buf off' (.onLoop searchFor idx? nextParts (i + 1) remaining)

/-- `Decoder::find_field` on a pre-split path. -/
def findField (fuel : Nat) (buf : List Nat) (off : Nat) (parts : List (List Nat)) :
    Option (Option ResultValue) :=
  findGo fuel buf off (.field parts)

/-- `Decoder::decode_map_recursively`: every requested path is searched from
the same map offset; insertions are collected in request order, and the
returned flag is `some ()` exactly when at least one path was found (for an
empty path list the loop never runs and the result is `none`, i.e.
NotFound). -/
def decodeMapRecursively (fuel : Nat) (buf : List Nat) (mapOffset : Nat) :
    List (List (List Nat)) → Option (Option Unit × List (List (List Nat) × ResultValue))
  | [] => some (none, [])
  | p :: rest => do
    let r ← findField fuel buf mapOffset p
    let (found, ins) ← decodeMapRecursively fuel buf mapOffset rest
    match r with
    | some v => pure (some (), (p, v) :: ins)
    | none => pure (found, ins)

/-- The entry loop of `Decoder::decode_map` (metadata reading): `count`
entries, each a string key followed by a value — requested keys decode
their value as a uint, others are skipped.  Insertions are collected as an
association list. -/
def decodeMapGo (fuel : Nat) (buf : List Nat) (fields : List (List Nat)) :
    Nat → Nat → Option (List (List Nat × Nat) × Nat)
  | off, 0 => some ([], off)
  | off, k + 1 => do
    let (key, off₁) ← decodeString buf off
    if fields.contains key then do
      let (v, off₂) ← decodeUint buf off₁
      let (rest, off₃) ← decodeMapGo fuel buf fields off₂ k
      pure ((key, v) :: rest, off₃)
    else do
      let off₂ ← skipValue fuel buf off₁
      let (rest, off₃) ← decodeMapGo fuel buf fields off₂ k
      pure (rest, off₃)

/-- `Decoder::decode_map` over the requested `fields`. -/
def decodeMap (fuel : Nat) (buf : List Nat) (off : Nat) (fields : List (List Nat)) :
    Option (List (List Nat × Nat) × Nat) := do
  let (_, size, off₁) ← decodeCtrlByte buf off
  decodeMapGo fuel buf fields off₁ size

/-- `struct Metadata` — the source retains only these two fields; there is
no `ip_version` field. -/
structure Metadata where
  node_count : Nat
  record_size : Nat
deriving DecidableEq

/-- The byte string `"node_count"`. -/
def nodeCountKey : List Nat := [110, 111, 100, 101, 95, 99, 111, 117, 110, 116]

/-- The byte string `"record_size"`. -/
def recordSizeKey : List Nat := [114, 101, 99, 111, 114, 100, 95, 115, 105, 122, 101]

/-- The byte string `"ip_version"`. -/
def ipVersionKey : List Nat := [105, 112, 95, 118, 101, 114, 115, 105, 111, 110]

/-- `Metadata::parse_metadata`: locate the metadata block, decode the known
keys from the tail slice, then index the resulting map — a missing
`node_count` or `record_size` key is a `HashMap` index panic (`none`).  The
`ip_version` entry is requested from the decoder but then dropped.  The
skip fuel is the tail length plus one: every nested value consumes at least
one byte, so this bounds the recursion the Rust code can perform in
bounds. -/
def parseMetadata (buffer : List Nat) : Option Metadata := do
  let offset := getMetadataBlockOffset buffer
  let tail := buffer.drop offset
  let (m, _) ← decodeMap (tail.length + 1) tail 0 [nodeCountKey, recordSizeKey, ipVersionKey]
  let nc ← m.lookup nodeCountKey
  let rs ← m.lookup recordSizeKey
  pure ⟨nc, rs⟩

/-- One record read of `Reader::find_ip_offset`: the node slice (whose
bounds are checked first), the 28-bit special case — which folds the ENTIRE
middle byte `buffer[offset + 3]` into the record on both sides — and the
generic half-split case for 24/32-bit records. -/
def calculatedValue (buf : List Nat) (off nsb recordSize : Nat) (isLeft : Bool) :
    Option Nat :=
  if off + nsb ≤ buf.length then
    let node := (buf.drop off).take nsb
    if recordSize = 28 then do
      let middle ← byteAt buf (off + 3)
      pure (if isLeft then (node.take 3).foldl foldU64Step middle
            else (node.drop 4).foldl foldU64Step middle)
    else
      let half := nsb / 2
      pure (if isLeft then (node.take half).foldl foldU64Step 0
            else (node.drop half).foldl foldU64Step 0)
  else none

/-- The descent loop of `Reader::find_ip_offset`, recursing on the count of
remaining bits (the current bit index is `remaining - 1`).  The Rust loop
computes `(bitmask >> i) & 1` on a `u32`; for IPv6 `i` reaches 127 and the
release build masks the shift amount to `i % 32` (the debug build panics
there) — the release semantics is modelled.  `some none` is the not-found
outcome (the `break` on equality and running out of bits), `some (some v)`
a data record. -/
def descentLoop (buf : List Nat) (meta : Metadata) (bitmask nsb : Nat) :
    Nat → Nat → Option (Option Nat)
  | _, 0 => some none
  | off, i + 1 => do
    let isLeft := ((bitmask >>> (i % 32)) &&& 1) == 0
    let v ← calculatedValue buf off nsb meta.record_size isLeft
    if v = meta.node_count then some none
    else if v < meta.node_count then descentLoop buf meta bitmask nsb (v * nsb) i
    else some (some v)

/-- `Reader::find_ip_offset`: bitmask and bit count from the address, start
offset 96 nodes in for every V4 query and 0 for every V6 query — the
database's own ip_version is never consulted (`Metadata` does not retain
it) — then the descent. -/
def findIpOffset (buf : List Nat) (meta : Metadata) (ip : IpAddr) : Option (Option Nat) :=
  let nsb := meta.record_size / 4
  let (bitmask, size) := ipToBitmask ip
  let start := match ip with
    | .v4 _ => 96 * nsb
    | .v6 _ => 0
  descentLoop buf meta bitmask nsb start size

/-- `Reader::lookup`: trie walk, early NotFound return on `?`, offset
translation into the data section, then the recursive path projection over
the data-section slice.  The subtraction `offset - node_count - 16` is a
`u64` debug-build panic when the record value is below `node_count + 16`,
modelled as `none`. -/
def lookup (fuel : Nat) (buffer : List Nat) (meta : Metadata) (ip : IpAddr)
    (fields : List (List (List Nat))) :
    Option (Option Unit × List (List (List Nat) × ResultValue)) := do
  let searchTreeSize := meta.record_size / 4 * meta.node_count + 16
  let r ← findIpOffset buffer meta ip
  match r with
  | none => pure (none, [])
  | some offset =>
    if offset < meta.node_count + 16 then none
    else
      let dataSectionOffset := offset - meta.node_count - 16
      decodeMapRecursively fuel (buffer.drop searchTreeSize) dataSectionOffset fields


/-- Modelled from the spec, for comparison: the left record of a 28-bit
node `L0 L1 L2 M R0 R1 R2` — the HIGH nibble of the middle byte `M` is its
most-significant nibble. -/
def specLeft28 (n0 n1 n2 m : Nat) : Nat :=
  ((m >>> 4) <<< 24) ||| (n0 <<< 16) ||| (n1 <<< 8) ||| n2

/-- Modelled from the spec, for comparison: the right record of a 28-bit
node — the LOW nibble of the middle byte is its most-significant nibble. -/
def specRight28 (m n4 n5 n6 : Nat) : Nat :=
  ((m &&& 0xF) <<< 24) ||| (n4 <<< 16) ||| (n5 <<< 8) ||| n6

/-- Modelled from the spec, for comparison: the pointer target for control
byte `b` followed by `payload` bytes — `ps = (b >> 3) & 3`, `pp = b & 7`,
biases 0 / 2048 / 526336 / 0, and for `ps = 3` a plain big-endian u32 with
`pp` ignored. -/
def specPointerTarget (b : Nat) (payload : List Nat) : Option Nat :=
  let ps := (b >>> 3) &&& 0x3
  let pp := b &&& 0x7
  match ps, payload with
  | 0, x1 :: _ => some ((pp <<< 8) ||| x1)
  | 1, x1 :: x2 :: _ => some (2048 + ((pp <<< 16) ||| (x1 <<< 8) ||| x2))
  | 2, x1 :: x2 :: x3 :: _ =>
    some (526336 + ((pp <<< 24) ||| (x1 <<< 16) ||| (x2 <<< 8) ||| x3))
  | 3, x1 :: x2 :: x3 :: x4 :: _ =>
    some ((x1 <<< 24) ||| (x2 <<< 16) ||| (x3 <<< 8) ||| x4)
  | _, _ => none

/-- Modelled from the spec, for comparison: the byte length of a pointer
value with control byte `b` — the control byte plus `ps + 1` target
bytes. -/
def specPointerLen (b : Nat) : Nat := 2 + ((b >>> 3) &&& 0x3)

/-- Demo buffer: a metadata map `{"node_count": 3, "record_size": 24}` that
contains no sentinel anywhere. -/
def noSentinelMapBuf : List Nat :=
  [0xE2, 0x4A] ++ nodeCountKey ++ [0xA1, 3, 0x4B] ++ recordSizeKey ++ [0xA1, 24]

/-- Demo buffer: a bare empty map (its metadata lacks every required key). -/
def emptyMapBuf : List Nat := [0xE0]

/-- Demo trie: two 24-bit nodes whose four records all hold the value 3
(a data record, since it exceeds the node count 2). -/
def v4TrieBytes : List Nat := [0, 0, 3, 0, 0, 3, 0, 0, 3, 0, 0, 3]

/-- Demo metadata map declaring
`{"node_count": 2, "record_size": 24, "ip_version": 4}` — an IPv4-only
file. -/
def v4MetaMap : List Nat :=
  [0xE3, 0x4A] ++ nodeCountKey ++ [0xA1, 2, 0x4B] ++ recordSizeKey ++
    [0xA1, 24, 0x4A] ++ ipVersionKey ++ [0xA1, 4]

/-- Demo file: the IPv4-only trie followed by sentinel and metadata. -/
def v4FileBuf : List Nat := v4TrieBytes ++ METADATA_DELIMETER ++ v4MetaMap

/-- Demo data section: the map `{"a": True}`. -/
def demoMapBuf : List Nat := [0xE1, 0x41, 0x61, 0x01, 0x07]

/-- Demo data section: a pointer at offset 0 targeting the string `"a"` at
offset 3. -/
def demoPtrBuf : List Nat := [0x20, 3, 0, 0x41, 0x61]

theorem foldU32Step_char (acc x : Nat) (hx : x < 2 ^ 8) :
    foldU32Step acc x = 2 ^ 8 * (acc % 2 ^ 24) + x := by
  unfold foldU32Step
  rw [Nat.shiftLeft_eq]
  have h1 : acc * 2 ^ 8 % 2 ^ 32 = acc % 2 ^ 24 * 2 ^ 8 := by
    have h := Nat.mul_mod_mul_right (2 ^ 8) acc (2 ^ 24)
    have : (2 : Nat) ^ 24 * 2 ^ 8 = 2 ^ 32 := by norm_num
    rw [this] at h
    exact h
  rw [h1, Nat.mul_comm (acc % 2 ^ 24) (2 ^ 8)]
  exact (Nat.mul_add_lt_is_or hx (acc % 2 ^ 24)).symm

/-- Folding bytes through the `u32` accumulator computes the big-endian value
reduced modulo 2^32. -/
theorem foldU32_mod (l : List Nat) (hl : ∀ b ∈ l, b < 2 ^ 8) :
    ∀ acc₁ acc₂ : Nat, acc₁ < 2 ^ 32 → acc₁ % 2 ^ 32 = acc₂ % 2 ^ 32 →
      l.foldl foldU32Step acc₁ = (l.foldl (fun acc x => acc * 256 + x) acc₂) % 2 ^ 32 := by
  induction l with
  | nil =>
    intro acc₁ acc₂ hlt hcong
    rw [List.foldl_nil, List.foldl_nil, ← hcong, Nat.mod_eq_of_lt hlt]
  | cons x t ih =>
    intro acc₁ acc₂ hlt hcong
    have hx : x < 2 ^ 8 := hl x (List.mem_cons_self x t)
    have ht : ∀ b ∈ t, b < 2 ^ 8 := fun b hb => hl b (List.mem_cons_of_mem x hb)
    simp only [List.foldl_cons]
    rw [foldU32Step_char acc₁ x hx]
    refine ih ht _ _ ?_ ?_
    · have : acc₁ % 2 ^ 24 < 2 ^ 24 := Nat.mod_lt _ (by norm_num)
      omega
    · have h1 : acc₁ % 2 ^ 24 * 2 ^ 8 % 2 ^ 32 = acc₁ * 2 ^ 8 % 2 ^ 32 := by
        have h := Nat.mul_mod_mul_right (2 ^ 8) acc₁ (2 ^ 24)
        have h32 : (2 : Nat) ^ 24 * 2 ^ 8 = 2 ^ 32 := by norm_num
        rw [h32] at h
        have hb : acc₁ % 2 ^ 24 * 2 ^ 8 < 2 ^ 32 := by
          have hm : acc₁ % 2 ^ 24 < 2 ^ 24 := Nat.mod_lt _ (by norm_num)
          calc acc₁ % 2 ^ 24 * 2 ^ 8 < 2 ^ 24 * 2 ^ 8 := by
                exact Nat.mul_lt_mul_of_lt_of_le hm (le_refl _) (by norm_num)
            _ = 2 ^ 32 := by norm_num
        rw [h, Nat.mod_eq_of_lt hb]
      have h2 : acc₁ * 2 ^ 8 % 2 ^ 32 = acc₂ * 2 ^ 8 % 2 ^ 32 := by
        conv_lhs => rw [Nat.mul_mod]
        conv_rhs => rw [Nat.mul_mod]
        rw [hcong]
      have h256 : (2 : Nat) ^ 8 = 256 := by norm_num
      rw [h256] at h1 h2
      omega

/-- C1, counterexample: for the IPv6 address `8000::` (octets
`80 00 ... 00`), the full 128-bit big-endian key is `2 ^ 127`, but
`ip_to_bitmask` folds the octets through a `u32` accumulator and returns `0`:
the lookup key is not the full 128-bit value of the address. -/
theorem c1_counterexample :
    ipToBitmask (.v6 [0x80, 0, 0, 0, 0, 0, 0, 0, 0, 0, 0, 0, 0, 0, 0, 0]) = (0, 128) ∧
    beValue [0x80, 0, 0, 0, 0, 0, 0, 0, 0, 0, 0, 0, 0, 0, 0, 0] = 2 ^ 127 ∧
    (0 : Nat) ≠ 2 ^ 127 := by
  refine ⟨by decide, by decide, by decide⟩

/-- C1, amended: for every IPv4 address the key is the 32-bit big-endian
value of its four octets (with 32 bits consumed); for every IPv6 address the
key is the full 128-bit big-endian value reduced modulo `2 ^ 32` — that is,
only the last four octets — although 128 bits are still requested from it. -/
theorem c1_amended :
    (∀ a b c d : Nat, a < 256 → b < 256 → c < 256 → d < 256 →
      ipToBitmask (.v4 [a, b, c, d]) = (beValue [a, b, c, d], 32)) ∧
    (∀ o : List Nat, (∀ x ∈ o, x < 256) →
      ipToBitmask (.v6 o) = (beValue o % 2 ^ 32, 128)) := by
  have h256 : (256 : Nat) = 2 ^ 8 := by norm_num
  constructor
  · intro a b c d ha hb hc hd
    have hbytes : ∀ x ∈ [a, b, c, d], x < 2 ^ 8 := by
      intro x hx
      simp only [List.mem_cons, List.not_mem_nil, or_false] at hx
      rcases hx with rfl | rfl | rfl | rfl <;> omega
    have h := foldU32_mod [a, b, c, d] hbytes 0 0 (by norm_num) rfl
    have hlt : beValue [a, b, c, d] < 2 ^ 32 := by
      simp only [beValue, List.foldl_cons, List.foldl_nil]
      omega
    simp only [ipToBitmask, beValue] at *
    rw [h, Nat.mod_eq_of_lt hlt]
  · intro o ho
    have hbytes : ∀ x ∈ o, x < 2 ^ 8 := by
      intro x hx; have := ho x hx; omega
    have h := foldU32_mod o hbytes 0 0 (by norm_num) rfl
    simp only [ipToBitmask, beValue] at *
    rw [h]

/-- C1, witness: the amended statement evaluated at the two addresses the
repository's own tests use: `81.2.69.160` keys to `1359103392`, and
`2001:0db8:85a3::8a2e:0370:7334` keys to `57701172` (its low 32 bits). -/
theorem c1_witness :
    ipToBitmask (.v4 [81, 2, 69, 160]) = (1359103392, 32) ∧
    ipToBitmask (.v6 [0x20, 0x01, 0x0d, 0xb8, 0x85, 0xa3, 0, 0, 0, 0,
      0x8a, 0x2e, 0x03, 0x70, 0x73, 0x34]) = (57701172, 128) := by
  constructor
  · have h := c1_amended.1 81 2 69 160 (by norm_num) (by norm_num) (by norm_num) (by norm_num)
    rw [h]
    decide
  · have h := c1_amended.2 [0x20, 0x01, 0x0d, 0xb8, 0x85, 0xa3, 0, 0, 0, 0,
      0x8a, 0x2e, 0x03, 0x70, 0x73, 0x34] (by decide)
    rw [h]
    decide

theorem delimTail_thirteen : delimTail 13 = finalThirteen.reverse := by decide

/-- A completed scan implies that the reversed buffer begins with the pending
delimiter suffix or contains the reversed final 13 sentinel bytes. -/
theorem scanRev_completes (l : List Nat) : ∀ i co len, 1 ≤ co → co ≤ 13 →
    scanRev len l i co ≠ 0 →
    (∃ t, l = delimTail co ++ t) ∨ (∃ t₁ t₂, l = t₁ ++ delimTail 13 ++ t₂) := by
  induction l with
  | nil =>
    intro i co len _ _ hne
    exact absurd rfl hne
  | cons x rest ih =>
    intro i co len hco1 hco13 hne
    simp only [scanRev] at hne
    by_cases hx : delimByte co = x
    · rw [if_pos hx] at hne
      by_cases hz : co - 1 = 0
      · left
        have hco : co = 1 := by omega
        subst hco
        exact ⟨rest, by simp [delimTail, hx]⟩
      · rw [if_neg hz] at hne
        have := ih (i + 1) (co - 1) len (by omega) (by omega) hne
        rcases this with ⟨t, ht⟩ | ⟨t₁, t₂, ht⟩
        · left
          obtain ⟨co', rfl⟩ : ∃ co', co = co' + 1 := ⟨co - 1, by omega⟩
          simp only [Nat.add_sub_cancel] at ht
          refine ⟨t, ?_⟩
          simp only [delimTail, List.cons_append, hx, ht]
        · right
          exact ⟨x :: t₁, t₂, by simp [ht]⟩
    · rw [if_neg hx] at hne
      have h13 : (13 : Nat) ≠ 0 := by omega
      rw [if_neg h13] at hne
      have := ih (i + 1) 13 len (by omega) (by omega) hne
      rcases this with ⟨t, ht⟩ | ⟨t₁, t₂, ht⟩
      · right
        exact ⟨[x], t, by simp [ht]⟩
      · right
        exact ⟨x :: t₁, t₂, by simp [ht]⟩

/-- C5, amended: if the 13 bytes `CD EF "MaxMind.com"` occur nowhere in the
buffer the sentinel scan cannot complete and `get_metadata_block_offset`
returns `0`; `parse_metadata` then interprets the bytes at the very start of
the file as the metadata map — there is no `MalformedMetadata` error value,
and a missing required key makes `open` terminate abnormally (a panic,
modelled as `none`) instead of returning an error. -/
theorem c5_amended (buf : List Nat) (h : ¬ finalThirteen <:+: buf) :
    getMetadataBlockOffset buf = 0 := by
  by_contra hne
  unfold getMetadataBlockOffset at hne
  have hc := scanRev_completes buf.reverse 0 13 buf.length (by omega) (by omega) hne
  rw [delimTail_thirteen] at hc
  refine h ?_
  rcases hc with ⟨t, ht⟩ | ⟨t₁, t₂, ht⟩
  · refine ⟨t.reverse, [], ?_⟩
    have hr := congrArg List.reverse ht
    simpa [List.reverse_append, List.append_assoc] using hr.symm
  · refine ⟨t₂.reverse, t₁.reverse, ?_⟩
    have hr := congrArg List.reverse ht
    simpa [List.reverse_append, List.append_assoc] using hr.symm

/-- Walking the reversed final 13 sentinel bytes from countdown state 13
completes the scan, whatever follows and whatever the preceding byte was. -/
theorem scanRev_on_revFinal (len i : Nat) (rest : List Nat) :
    scanRev len (finalThirteen.reverse ++ rest) i 13 = len - (i + 12) + 12 := by
  simp [finalThirteen, scanRev, delimByte, METADATA_DELIMETER]

/-- C10, amended: the scan never compares the sentinel's first byte `0xAB`
(the countdown only uses delimiter indices 13 down to 1), so a buffer ending
in the final 13 sentinel bytes preceded by ANY byte `b` — `0xAB` or not — is
accepted exactly as if the full 14-byte sentinel were present, the reported
offset being the buffer length.  The backward matcher can however be
derailed by bytes after an occurrence (see the counterexample), so the
offset is not determined solely by the rearmost occurrence of the 13 bytes. -/
theorem c10_amended (pre : List Nat) (b : Nat) :
    getMetadataBlockOffset (pre ++ b :: finalThirteen) = pre.length + 14 := by
  unfold getMetadataBlockOffset
  have hrev : (pre ++ b :: finalThirteen).reverse =
      finalThirteen.reverse ++ (b :: pre.reverse) := by
    simp
  rw [hrev, scanRev_on_revFinal]
  have hlen : (pre ++ b :: finalThirteen).length = pre.length + 14 := by
    simp [finalThirteen]
  rw [hlen]
  omega

/-- C10, counterexample: the buffer `00 CD EF "MaxMind.com" 6D` contains the
final 13 sentinel bytes (preceded by `0x00 ≠ 0xAB`), yet the scan reports
offset `0` — the trailing `6D` byte derails the countdown, which never
re-examines a mismatching byte.  Dropping the trailing byte yields offset
`14`, so the offset is not a function of the rearmost occurrence alone and a
13-byte match preceded by a non-`0xAB` byte is not always accepted. -/
theorem c10_counterexample :
    getMetadataBlockOffset (0x00 :: finalThirteen ++ [0x6D]) = 0 ∧
    (0x00 :: finalThirteen ++ [0x6D] = [0x00] ++ finalThirteen ++ [0x6D]) ∧
    getMetadataBlockOffset ([0x00] ++ finalThirteen) = 14 := by
  refine ⟨by decide, by decide, by decide⟩

/-- C5, counterexample: `noSentinelMapBuf` contains no occurrence of the
final 13 sentinel bytes, yet `open` (via `parse_metadata`) happily returns a
`Reader` for it — the scan reports offset 0 and the bytes at the start of
the file are interpreted as the metadata map; and on `emptyMapBuf` (also
sentinel-free, metadata map lacking `node_count` and `record_size`) the
`HashMap` indexing panics (modelled `none`) — no `MalformedMetadata` error
value is ever produced. -/
theorem c5_counterexample :
    (¬ finalThirteen <:+: noSentinelMapBuf) ∧
    getMetadataBlockOffset noSentinelMapBuf = 0 ∧
    parseMetadata noSentinelMapBuf = some ⟨3, 24⟩ ∧
    (¬ finalThirteen <:+: emptyMapBuf) ∧
    parseMetadata emptyMapBuf = none := by
  refine ⟨by decide, by decide, by decide, by decide, by decide⟩

/-- C5, witness: the amended scan theorem applied to the concrete
sentinel-free buffer `emptyMapBuf`. -/
theorem c5_witness : getMetadataBlockOffset emptyMapBuf = 0 :=
  c5_amended emptyMapBuf (by decide)

/-- C2: on the 7-byte node `00 00 00 12 00 00 00` with record size 28, the
source computes `0x12 << 24 = 301989888` for BOTH the left and the right
record — it folds the entire middle byte into each — whereas the claimed
layout gives `(0x12 >> 4) << 24 = 16777216` for the left record and
`(0x12 & 0xF) << 24 = 33554432` for the right record. -/
theorem c2_bug :
    calculatedValue [0, 0, 0, 0x12, 0, 0, 0] 0 7 28 true = some 301989888 ∧
    calculatedValue [0, 0, 0, 0x12, 0, 0, 0] 0 7 28 false = some 301989888 ∧
    specLeft28 0 0 0 0x12 = 16777216 ∧
    specRight28 0x12 0 0 0 = 33554432 ∧
    (301989888 : Nat) ≠ 16777216 ∧ (301989888 : Nat) ≠ 33554432 := by
  refine ⟨by decide, by decide, by decide, by decide, by decide, by decide⟩

/-- C3: for the pointer control byte `0x3D` (`ps = 3`, `pp = 5`) followed by
the bytes `02 00 00 09`, the claim prescribes target
`u32_be(02 00 00 00) = 33554432`; the source instead treats the low five
bits `29` as a generic size field, consumes the first payload byte `02` as
a size extension, then re-reads that byte as the pointer control byte and
takes the `ps = 0` branch, producing target `512` after consuming only one
further byte. -/
theorem c3_bug :
    decodeCtrlByte [0x3D, 2, 0, 0, 0, 9] 0 = some (.pointer, 31, 2) ∧
    getPointerAddress [0x3D, 2, 0, 0, 0, 9] 2 = some (512, 3) ∧
    specPointerTarget 0x3D [2, 0, 0, 0, 9] = some 33554432 ∧
    (512 : Nat) ≠ 33554432 := by
  refine ⟨by decide, by decide, by decide, by decide⟩

/-- C8: the pointer value `3D 00 00 00 00` occupies
`specPointerLen 0x3D = 5` bytes per the format, but `skip_value` leaves the
cursor at 3 — two bytes inside the value — because `decode_ctrl_byte`
consumes the first target byte as a size extension and
`get_pointer_address` then re-parses it as the control byte.  The cursor
invariant fails for this well-formed value. -/
theorem c8_bug :
    specPointerLen 0x3D = 5 ∧
    decodeCtrlByte [0x3D, 0, 0, 0, 0, 0] 0 = some (.pointer, 29, 2) ∧
    skipValue 10 [0x3D, 0, 0, 0, 0, 0] 0 = some 3 ∧
    (3 : Nat) ≠ 0 + 5 := by
  refine ⟨by decide, by decide, by decide, by decide⟩

/-- C4, counterexample: `v4FileBuf` is an IPv4-only file — its metadata map
declares `ip_version: 4` (read by the decoder and then dropped) — with a
two-node trie whose records all lead to data record 3.  A descent started
at node 0 terminates with record 3, but the source starts every IPv4 query
at byte offset `96 * (record_size / 4) = 576`, far past the trie, and
panics (`none`): the initial node does not depend on the database's
ip_version and is not 0 for an IPv4-only file. -/
theorem c4_counterexample :
    parseMetadata v4FileBuf = some ⟨2, 24⟩ ∧
    (decodeMap ((v4FileBuf.drop 26).length + 1) (v4FileBuf.drop 26) 0
        [nodeCountKey, recordSizeKey, ipVersionKey]).map (fun p => p.1) =
      some [(nodeCountKey, 2), (recordSizeKey, 24), (ipVersionKey, 4)] ∧
    findIpOffset v4FileBuf ⟨2, 24⟩ (.v4 [1, 2, 3, 4]) = none ∧
    descentLoop v4FileBuf ⟨2, 24⟩ (beValue [1, 2, 3, 4]) 6 0 32 = some (some 3) := by
  refine ⟨by decide, by decide, by decide, by decide⟩

/-- C4, amended: the initial trie node depends only on the query's address
family, never on the database's ip_version (which `Metadata` does not even
retain): every IPv4 query starts at byte offset `96 * (record_size / 4)`
and every IPv6 query at 0. -/
theorem c4_amended :
    (∀ (buf : List Nat) (meta : Metadata) (o : List Nat),
      findIpOffset buf meta (.v4 o) =
        descentLoop buf meta (o.foldl foldU32Step 0) (meta.record_size / 4)
          (96 * (meta.record_size / 4)) 32) ∧
    (∀ (buf : List Nat) (meta : Metadata) (o : List Nat),
      findIpOffset buf meta (.v6 o) =
        descentLoop buf meta (o.foldl foldU32Step 0) (meta.record_size / 4) 0 128) :=
  ⟨fun _ _ _ => rfl, fun _ _ _ => rfl⟩

theorem tagToTy_big {t : Nat} (h : 15 < t) : tagToTy t = none := by
  obtain ⟨k, rfl⟩ : ∃ k, t = k + 16 := ⟨t - 16, by omega⟩
  rfl

/-- C6, amended: on a control byte whose extended-type branch yields an
undefined tag (above 15) the decoder hits `unreachable!()` and terminates
abnormally (`none`); on a String payload that is not valid UTF-8,
`decode_value` hits `from_utf8(..).unwrap()` and terminates abnormally.
There is no `MalformedData` error value: the lookup result type has only
the Found and NotFound outcomes. -/
theorem c6_amended :
    (∀ (buf : List Nat) (off b e : Nat),
      byteAt buf off = some b → b >>> 5 = 0 → byteAt buf (off + 1) = some e →
      15 < 7 + e → decodeCtrlByte buf off = none) ∧
    (∀ (fuel : Nat) (buf : List Nat) (off size o₁ : Nat),
      decodeCtrlByte buf off = some (.string, size, o₁) →
      isValidUtf8 ((buf.drop o₁).take size) = false →
      decodeValue (fuel + 1) buf off = none) := by
  constructor
  · intro buf off b e hb hbit he htag
    simp [decodeCtrlByte, hb, hbit, he, tagToTy_big htag]
  · intro fuel buf off size o₁ hctrl hutf
    rw [decodeValue, hctrl]
    simp [hutf]

/-- C6, counterexample: the decoder's abnormal terminations at an undefined
extended tag (`00 09`, tag 16) and at an invalid UTF-8 string payload
(`41 FF`): the claim promises a `MalformedData` error value, but lookup's
return type (`Option<()>`) has no such value and the code panics. -/
theorem c6_counterexample :
    decodeCtrlByte [0x00, 0x09] 0 = none ∧
    decodeValue 3 [0x41, 0xFF] 0 = none := by
  refine ⟨by decide, by decide⟩

/-- C6, witness: the amended statement applied to the concrete tag-17 buffer
`00 0A` and to the string `42 C3 28` whose payload `C3 28` is invalid
UTF-8. -/
theorem c6_witness :
    decodeCtrlByte [0x00, 0x0A] 0 = none ∧
    decodeValue 9 [0x42, 0xC3, 0x28] 0 = none :=
  ⟨c6_amended.1 [0x00, 0x0A] 0 0 0x0A (by decide) (by decide) (by decide) (by decide),
   c6_amended.2 8 [0x42, 0xC3, 0x28] 0 2 1 (by decide) (by decide)⟩

/-- C7, amended: the Found/NotFound flag returned by
`decode_map_recursively` is `some ()` exactly when at least one requested
path was found; a path that cannot be located contributes nothing to the
output, and the EMPTY path list yields NotFound (`none`) with no
insertions — even when a map exists at the terminal offset — because the
flag starts as `None` and the loop body never runs. -/
theorem c7_amended (fuel : Nat) (buf : List Nat) (off : Nat) :
    ∀ (paths : List (List (List Nat))) (found : Option Unit)
      (ins : List (List (List Nat) × ResultValue)),
      decodeMapRecursively fuel buf off paths = some (found, ins) →
      (found = some () ↔ ∃ p ∈ paths, ∃ v, findField fuel buf off p = some (some v)) := by
  intro paths
  induction paths with
  | nil =>
    intro found ins h
    simp only [decodeMapRecursively, Option.some.injEq, Prod.mk.injEq] at h
    simp [← h.1]
  | cons p rest ih =>
    intro found ins h
    rw [decodeMapRecursively] at h
    cases hf : findField fuel buf off p with
    | none => rw [hf] at h; simp at h
    | some r =>
      rw [hf] at h
      cases hrec : decodeMapRecursively fuel buf off rest with
      | none => rw [hrec] at h; simp at h
      | some pr =>
        obtain ⟨found_r, ins_r⟩ := pr
        rw [hrec] at h
        have ihh := ih found_r ins_r hrec
        cases r with
        | none =>
          rw [Option.bind_eq_bind, Option.some_bind, Option.bind_eq_bind, Option.some_bind] at h
          simp only [Option.pure_def, Option.some.injEq, Prod.mk.injEq] at h
          obtain ⟨hfd, hins⟩ := h
          subst hfd
          rw [ihh]
          constructor
          · rintro ⟨q, hq, v, hv⟩
            exact ⟨q, List.mem_cons_of_mem p hq, v, hv⟩
          · rintro ⟨q, hq, v, hv⟩
            rcases List.mem_cons.mp hq with rfl | hq2
            · rw [hf] at hv
              simp at hv
            · exact ⟨q, hq2, v, hv⟩
        | some v =>
          rw [Option.bind_eq_bind, Option.some_bind, Option.bind_eq_bind, Option.some_bind] at h
          simp only [Option.pure_def, Option.some.injEq, Prod.mk.injEq] at h
          obtain ⟨hfd, hins⟩ := h
          subst hfd
          simp only [true_iff]
          exact ⟨p, List.mem_cons_self p rest, v, hf⟩


/-- C7, counterexample: `emptyMapBuf` holds an (empty) map at offset 0, yet
a lookup with the empty path list returns NotFound (`none`) with no
insertions — not Found as the claim's empty-path clause states. -/
theorem c7_counterexample :
    decodeCtrlByte emptyMapBuf 0 = some (.map, 0, 1) ∧
    decodeMapRecursively 5 emptyMapBuf 0 [] = some (none, []) := by
  refine ⟨by decide, by decide⟩

/-- C7, witness: the amended statement applied to the map `{"a": True}`
with the single requested path `"a"`, which is found. -/
theorem c7_witness :
    ∃ p ∈ [[[0x61]]], ∃ v, findField 6 demoMapBuf 0 p = some (some v) :=
  (c7_amended 6 demoMapBuf 0 [[[0x61]]] (some ())
    [([[0x61]], .boolean true)] (by decide)).mp rfl

theorem decodeValue_mono :
    ∀ (fuel : Nat) (buf : List Nat) (off : Nat) (r : ResultValue × Nat),
      decodeValue fuel buf off = some r → decodeValue (fuel + 1) buf off = some r := by
  intro fuel
  induction fuel with
  | zero =>
    intro buf off r h
    simp [decodeValue] at h
  | succ n ih =>
    intro buf off r h
    cases hc : decodeCtrlByte buf off with
    | none =>
      rw [decodeValue, hc] at h
      simp at h
    | some t =>
      obtain ⟨ty, size, off₁⟩ := t
      rw [decodeValue, hc, Option.bind_eq_bind, Option.some_bind] at h
      rw [decodeValue, hc, Option.bind_eq_bind, Option.some_bind]
      cases ty
      all_goals try exact h
      -- pointer case remains
      simp only [] at h ⊢
      cases hp : getPointerAddress buf off₁ with
      | none =>
        rw [hp] at h
        simp at h
      | some q =>
        obtain ⟨p, po⟩ := q
        rw [hp] at h
        simp only [Option.bind_eq_bind, Option.some_bind] at h ⊢
        exact ih buf p r h

theorem decodeValue_mono_le {F G : Nat} (h : F ≤ G) :
    ∀ (buf : List Nat) (off : Nat) (r : ResultValue × Nat),
      decodeValue F buf off = some r → decodeValue G buf off = some r := by
  induction h with
  | refl => intro buf off r hr; exact hr
  | step _ ih =>
    intro buf off r hr
    exact decodeValue_mono _ buf off r (ih buf off r hr)

/-- C9: pointer resolution is deterministic — when the control byte at
`off` is a pointer with target `p`, any successful decode of the value at
`off` (which follows the pointer) returns exactly the tagged value (and
final cursor) of a successful decode of the pointee at its own offset `p`,
whatever fuel either decode was given. -/
theorem c9_pointer_determinism :
    ∀ (buf : List Nat) (off s o₁ p po fuelA fuelB : Nat) (r₁ r₂ : ResultValue × Nat),
      decodeCtrlByte buf off = some (.pointer, s, o₁) →
      getPointerAddress buf o₁ = some (p, po) →
      decodeValue fuelA buf off = some r₁ →
      decodeValue fuelB buf p = some r₂ →
      r₁ = r₂ := by
  intro buf off s o₁ p po fuelA fuelB r₁ r₂ hc hp h1 h2
  cases fuelA with
  | zero => simp [decodeValue] at h1
  | succ G =>
    rw [decodeValue, hc, Option.bind_eq_bind, Option.some_bind] at h1
    simp only [] at h1
    rw [hp] at h1
    simp only [Option.bind_eq_bind, Option.some_bind] at h1
    have h1' : decodeValue G buf p = some r₁ := h1
    have ha := decodeValue_mono_le (Nat.le_max_left G fuelB) buf p r₁ h1'
    have hb := decodeValue_mono_le (Nat.le_max_right G fuelB) buf p r₂ h2
    rw [ha] at hb
    exact Option.some.inj hb

/-- C9, witness: the determinism theorem applied to `demoPtrBuf`, where the
pointer at offset 0 targets the string `"a"` at offset 3 — both decodes
yield the tagged value `str "a"` with cursor 5. -/
theorem c9_witness :
    ((ResultValue.str [0x61], 5) : ResultValue × Nat) = (ResultValue.str [0x61], 5) :=
  c9_pointer_determinism demoPtrBuf 0 0 1 3 2 5 9 (.str [0x61], 5) (.str [0x61], 5)
    (by decide) (by decide) (by decide) (by decide)

end Mmdb
